import Mathlib

/-!
Shallow embedding of the SRI-hasher core (`src/index.js`) and proofs about it.

Modelling conventions:
* JavaScript strings are embedded as `List Char`; a Lean string literal `s`
  is injected via `s.data`.
* `Uint8Array` / binary-string contents are embedded as `List Nat`
  (one entry per byte / char code).
* Browser primitives (URL parsing, `fetch`, `crypto.subtle.digest`) are
  oracles: their outcomes are explicit parameters of the embedded functions,
  so a run of the orchestration is a pure function of its inputs and of the
  recorded platform outcomes.
* `String.prototype.toLowerCase` is embedded as `Char.toLower` (ASCII case
  mapping), adequate for the extension tokens handled here.
-/

namespace SriHasher

/-- Decidable equality for modelled fallible results. -/
instance {α β : Type} [DecidableEq α] [DecidableEq β] : DecidableEq (Except α β) := fun x y =>
  match x, y with
  | .error a, .error b =>
    decidable_of_iff (a = b) ⟨fun h => by rw [h], fun h => by injection h⟩
  | .error _, .ok _ => isFalse (fun h => Except.noConfusion h)
  | .ok _, .error _ => isFalse (fun h => Except.noConfusion h)
  | .ok a, .ok b =>
    decidable_of_iff (a = b) ⟨fun h => by rw [h], fun h => by injection h⟩

/-- JS `str.split(sep)` for a single-character separator: the list of
segments between occurrences of `c` (so `"".split(c) = [""]`,
`"/".split("/") = ["", ""]`). -/
def splitOnChar (c : Char) : List Char → List (List Char)
  | [] => [[]]
  | x :: xs =>
    if x = c then [] :: splitOnChar c xs
    else
      match splitOnChar c xs with
      | [] => [[x]]
      | h :: t => (x :: h) :: t

/-- JS `arr.pop()` on the (never empty) result of a `split`: the last
segment, with `[]` as the (unreachable) default. -/
def lastSegment (c : Char) (s : List Char) : List Char :=
  (splitOnChar c s).getLastD []

/-- Inner helper `yieldExt` of `getExtension` (src/index.js lines 80-87):
`''` when the string has no `'.'`, otherwise
`str.split('.').pop().toLowerCase()`. -/
def yieldExt (s : List Char) : List Char :=
  if '.' ∈ s then (lastSegment '.' s).map Char.toLower else []

/-- `EXT_MASTER` (src/index.js lines 10-17): the closed table mapping an
extension key to its HTML tag template. -/
def EXT_MASTER : List (List Char × List Char) :=
  [("js".data,
    "<script src=\"\x7b\x7bsource\x7d\x7d\" integrity=\"\x7b\x7bsri\x7d\x7d\" crossorigin=\"anonymous\"></script>".data),
   ("css".data,
    "<link rel=\"stylesheet\" href=\"\x7b\x7bsource\x7d\x7d\" integrity=\"\x7b\x7bsri\x7d\x7d\" crossorigin=\"anonymous\">".data)]

/-- `ALLOWED_EXTENSIONS = Object.keys(EXT_MASTER)` (src/index.js line 25). -/
def ALLOWED_EXTENSIONS : List (List Char) :=
  EXT_MASTER.map Prod.fst

/-- The result of a successful `new URL(u)`: the fields of the WHATWG `URL`
object that `getExtension`/`validateURL` consult.  `searchParams` is the
ordered key/value list; `URLSearchParams.get(k)` is first-match lookup. -/
structure JSURL where
  protocol : List Char
  pathname : List Char
  searchParams : List (List Char × List Char)

/-- `URLSearchParams.get(k)`: value of the first pair with key `k`,
`null` (`none`) when absent. -/
def spGet (k : List Char) (qs : List (List Char × List Char)) : Option (List Char) :=
  qs.lookup k

/-- JS truthiness of a `string | null` candidate: `null` and `''` are falsy. -/
def optTruthy : Option (List Char) → Bool
  | none => false
  | some v => !v.isEmpty

/-- The argument of `getExtension`: a `URL` object or a plain string. -/
inductive Target where
  | url (u : JSURL)
  | strT (s : List Char)

/-- `getExtension` (src/index.js lines 71-124). -/
def getExtension : Target → List Char
  | .url u =>
    let path := u.pathname
    let queries := u.searchParams
    let last := lastSegment '/' path
    if last = [] then []
    else if '.' ∈ last then
      let fromPath := yieldExt last
      if fromPath ≠ [] ∧ fromPath ≠ path.map Char.toLower then fromPath else []
    else
      let c1 := spGet ("file".data) queries
      let candidate := if optTruthy c1 then c1 else spGet ("filename".data) queries
      if optTruthy candidate then yieldExt (candidate.getD []) else []
  | .strT s => yieldExt s

/-- `validationSet` (src/index.js lines 48-51): the validation verdict. -/
structure ValidationSet where
  isValid : Bool
  extension : Option (List Char)
deriving DecidableEq, Repr

/-- `validateURL` (src/index.js lines 134-159), as a function of the outcome
of `new URL(u)`: `none` models a parse that throws (the `catch` branch). -/
def validateURL (parsed : Option JSURL) : ValidationSet :=
  match parsed with
  | none => ⟨false, none⟩
  | some url =>
    if url.protocol = "http:".data ∨ url.protocol = "https:".data then
      let ext := getExtension (.url url)
      if ALLOWED_EXTENSIONS.contains ext then ⟨true, some ext⟩
      else ⟨false, none⟩
    else ⟨false, none⟩

/-- An uploaded `File`: name, size, and the outcome of `file.arrayBuffer()`. -/
structure JsFile where
  name : List Char
  size : Nat
  content : Except (List Char) (List Nat)

/-- `validateFile` (src/index.js lines 217-237); `none` models a null file,
and an empty `name` is falsy in the `!file.name` check. -/
def validateFile (file : Option JsFile) : ValidationSet :=
  match file with
  | none => ⟨false, none⟩
  | some f =>
    if f.name = [] then ⟨false, none⟩
    else
      let ext := getExtension (.strT f.name)
      if ALLOWED_EXTENSIONS.contains ext then ⟨true, some ext⟩
      else ⟨false, none⟩

/-- `algoToSriPrefix` (src/index.js lines 245-249):
`algo.replace(/^SHA\-(256|384|512)$/i, '$1')` keeps only the bit count for
the three anchored, case-insensitive matches and leaves any other string
unchanged; the result is wrapped as `sha<algoBit>-`. -/
def algoToSriPrefix (algo : List Char) : List Char :=
  let lower := algo.map Char.toLower
  let algoBit :=
    if lower = "sha-256".data then "256".data
    else if lower = "sha-384".data then "384".data
    else if lower = "sha-512".data then "512".data
    else algo
  "sha".data ++ algoBit ++ "-".data

/-- The 0x8000-sized chunks of a byte list, in order: the successive
`bytes.subarray(i, i + chunk)` slices of the loop in `arrayBufferToBase64`. -/
def toChunks (l : List Nat) : List (List Nat) :=
  if l = [] then [] else l.take 0x8000 :: toChunks (l.drop 0x8000)
termination_by l.length
decreasing_by
  simp only [List.length_drop]
  have : l ≠ [] := by assumption
  have hl : 0 < l.length := List.length_pos.mpr this
  omega

/-- The standard base64 alphabet. -/
def b64Alphabet : List Char :=
  "ABCDEFGHIJKLMNOPQRSTUVWXYZabcdefghijklmnopqrstuvwxyz0123456789+/".data

/-- Character for a 6-bit group. -/
def b64Char (n : Nat) : Char := b64Alphabet.getD n 'A'

/-- Model of the platform `btoa` primitive on a binary string, given as the
list of its char codes (each < 256): standard base64 with `=` padding. -/
def btoa : List Nat → List Char
  | [] => []
  | [b1] =>
    [b64Char (b1 / 4), b64Char (b1 % 4 * 16), '=', '=']
  | [b1, b2] =>
    [b64Char (b1 / 4), b64Char (b1 % 4 * 16 + b2 / 16), b64Char (b2 % 16 * 4), '=']
  | b1 :: b2 :: b3 :: rest =>
    b64Char (b1 / 4) :: b64Char (b1 % 4 * 16 + b2 / 16) ::
      b64Char (b2 % 16 * 4 + b3 / 64) :: b64Char (b3 % 64) :: btoa rest

/-- `arrayBufferToBase64` (src/index.js lines 257-267): the binary string is
built by appending `String.fromCharCode(...bytes.subarray(i, i + 0x8000))`
chunk by chunk (`fromCharCode` maps each byte to the char of that code, so
the accumulated string is the concatenation of the chunks), then `btoa` is
applied once to the whole string. -/
def arrayBufferToBase64 (buf : List Nat) : List Char :=
  btoa (toChunks buf).flatten

/-- `sriFromArrayBuffer` (src/index.js lines 276-281), as a function of the
`crypto.subtle.digest` oracle `digestFn` (mapping algorithm name and buffer
to the digest bytes). -/
def sriFromArrayBuffer (digestFn : List Char → List Nat → List Nat)
    (arrayBuffer : List Nat) (algo : List Char) : List Char :=
  algoToSriPrefix algo ++ arrayBufferToBase64 (digestFn algo arrayBuffer)

/-- First occurrence of the pattern `pat` in `s`: `none` when absent,
otherwise `some (before, after)` with `s = before ++ pat ++ after` and
`before` shortest. -/
def splitFirst (pat : List Char) : List Char → Option (List Char × List Char)
  | [] => if pat = [] then some ([], []) else none
  | x :: xs =>
    if pat.isPrefixOf (x :: xs) then some ([], (x :: xs).drop pat.length)
    else
      match splitFirst pat xs with
      | none => none
      | some (b, a) => some (x :: b, a)

/-- `GetSubstitution` of JS `String.prototype.replace` for a string pattern
(no capture groups): the replacement text with `$$`, `$&` (matched string),
`$`&#96; (portion before the match) and `$`&#39; (portion after the match)
interpreted, every other character (including a lone or unrecognized `$`)
kept literally. -/
def getSubstitution (matched before after : List Char) : List Char → List Char
  | [] => []
  | c :: rest =>
    if c = '$' then
      match rest with
      | [] => ['$']
      | d :: rest2 =>
        if d = '$' then '$' :: getSubstitution matched before after rest2
        else if d = '&' then matched ++ getSubstitution matched before after rest2
        else if d = Char.ofNat 96 then before ++ getSubstitution matched before after rest2
        else if d = Char.ofNat 39 then after ++ getSubstitution matched before after rest2
        else c :: d :: getSubstitution matched before after rest2
    else c :: getSubstitution matched before after rest

/-- JS `s.replace(pat, repl)` for string arguments: the first occurrence of
`pat` is replaced by `repl` processed through `GetSubstitution`; `s` is
returned unchanged when `pat` does not occur. -/
def jsReplaceFirst (s pat repl : List Char) : List Char :=
  match splitFirst pat s with
  | none => s
  | some (b, a) => b ++ getSubstitution pat b a repl ++ a

/-- Literal first-occurrence substitution, as the spec words it ("the first
occurrence of the placeholder replaced by" the given string): like
`jsReplaceFirst` but the replacement text is inserted verbatim. -/
def replaceFirstLiteral (s pat repl : List Char) : List Char :=
  match splitFirst pat s with
  | none => s
  | some (b, a) => b ++ repl ++ a

/-- Rendering of `sriSet.extension` inside the template literal
`` `Unknown extension: ...` ``: `undefined` for an unset field. -/
def extensionText : Option (List Char) → List Char
  | none => "undefined".data
  | some e => e

/-- The property key used by `EXT_MASTER[sriSet.extension]`:
`ToPropertyKey(undefined)` is the string `undefined`. -/
def propertyKey : Option (List Char) → List Char
  | none => "undefined".data
  | some e => e

/-- The property names a plain object literal such as `EXT_MASTER`
inherits from `Object.prototype`; reading any of them yields a truthy
value (a built-in function, or `Object.prototype` itself for
`__proto__`). -/
def objectPrototypeKeys : List (List Char) :=
  ["constructor".data, "hasOwnProperty".data, "isPrototypeOf".data,
   "propertyIsEnumerable".data, "toLocaleString".data, "toString".data,
   "valueOf".data, "__proto__".data, "__defineGetter__".data,
   "__defineSetter__".data, "__lookupGetter__".data, "__lookupSetter__".data]

/-- Outcome of the JS property access `EXT_MASTER[key]`: an own template
record (carrying its `tag` string), a truthy value inherited from
`Object.prototype` (whose `.tag` is `undefined`), or `undefined`. -/
inductive PropValue where
  | own (tag : List Char)
  | inherited
  | absent
deriving DecidableEq, Repr

/-- `EXT_MASTER[key]` with JS property-lookup semantics: own keys first,
then the `Object.prototype` chain, else `undefined`. -/
def extMasterAccess (key : List Char) : PropValue :=
  match EXT_MASTER.lookup key with
  | some tag => .own tag
  | none => if key ∈ objectPrototypeKeys then .inherited else .absent

/-- What `makeHtmlTag` throws: the source-defined `Unknown extension:`
error from its guard, or the platform TypeError raised by
`tag.replace(...)` when `tag` is `undefined` (its message wording is
engine-defined, so it is not fixed here). -/
inductive TagError where
  | unknownExtension (text : List Char)
  | typeErrorUndefinedTag
deriving DecidableEq, Repr

/-- The `message` of a thrown `TagError` as seen by the handler's `catch`;
`typeErrMsg` is the platform's wording for the undefined-read TypeError. -/
def tagErrorMessage (typeErrMsg : List Char) : TagError → List Char
  | .unknownExtension text => text
  | .typeErrorUndefinedTag => typeErrMsg

/-- `makeHtmlTag` (src/index.js lines 291-299).  The source reads the
module-global `sriSet.extension`; here that value is the explicit first
argument.  The guard `!EXT_MASTER[sriSet.extension]` throws the
descriptive error only when the property access yields `undefined`; for a
key inherited from `Object.prototype` the guard sees a truthy value,
`EXT_MASTER[key].tag` is `undefined`, and `tag.replace(...)` throws a
TypeError instead. -/
def makeHtmlTag (extension : Option (List Char)) (source sri : List Char) :
    Except TagError (List Char) :=
  match extMasterAccess (propertyKey extension) with
  | .absent => .error (.unknownExtension ("Unknown extension: ".data ++ extensionText extension))
  | .inherited => .error .typeErrorUndefinedTag
  | .own tag =>
    .ok (jsReplaceFirst (jsReplaceFirst tag ("\x7b\x7bsource\x7d\x7d".data) source)
          ("\x7b\x7bsri\x7d\x7d".data) sri)

/-- A thrown JS exception, reduced to its `message`. -/
structure JsError where
  message : List Char
deriving DecidableEq, Repr

/-- A transport-level `fetch` response as consulted by `probeCorsReadable`:
`status` and the `content-type` header (`none` when absent). -/
structure ProbeResponse where
  status : Nat
  contentType : Option (List Char)
deriving DecidableEq, Repr

/-- The object returned by `probeCorsReadable`: `status`/`contentType` are
present only on the readable outcome, `reason` only on the failure one. -/
structure ProbeResult where
  readable : Bool
  status : Option Nat
  contentType : Option (List Char)
  reason : Option (List Char)
deriving DecidableEq, Repr

/-- `probeCorsReadable` (src/index.js lines 191-206), as a function of the
outcomes of the two `fetch(url, { method, mode: 'cors', cache: 'no-store' })`
attempts: `headRes` for `HEAD` and `getRes` for the `GET` retry.  The inner
`catch` swallows the `HEAD` exception, so when both attempts throw the outer
`catch` sees the `GET` exception. -/
def probeCorsReadable (headRes getRes : Except JsError ProbeResponse) : ProbeResult :=
  match headRes with
  | .ok res => ⟨true, some res.status, res.contentType, none⟩
  | .error _ =>
    match getRes with
    | .ok res => ⟨true, some res.status, res.contentType, none⟩
    | .error e => ⟨false, none, none, some e.message⟩

/-- A full `fetch` response as consulted by `fetchContent`. -/
structure FetchResponse where
  ok : Bool
  status : Nat
  statusText : List Char
  buffer : List Nat
deriving DecidableEq, Repr

/-- `fetchContent` (src/index.js lines 168-176), as a function of the
`fetch(url)` outcome: a thrown fetch propagates, a response with `!ok`
throws `Fetch failed: <status> - <statusText>`, otherwise the body bytes
are returned. -/
def fetchContent (res : Except JsError FetchResponse) : Except (List Char) (List Nat) :=
  match res with
  | .error e => .error e.message
  | .ok r =>
    if r.ok then .ok r.buffer
    else .error ("Fetch failed: ".data ++ (Nat.repr r.status).data ++ " - ".data ++ r.statusText)

/-- `sriSet` (src/index.js lines 36-40): the module-global Result Store. -/
structure SriSet where
  sri : Option (List Char)
  sriTag : Option (List Char)
  extension : Option (List Char)
deriving DecidableEq, Repr

/-- `initSriSet` (src/index.js lines 59-63): the `for..in` loop writes
`undefined` over every property of the store. -/
def initSriSet (s : SriSet) : SriSet :=
  { s with sri := none, sriTag := none, extension := none }

/-- What the handler does to the UI at the end of a run: show an error
alert with a message, or reveal the result card. -/
inductive UiOutcome where
  | alert (msg : List Char)
  | success
deriving DecidableEq, Repr

/-- The guidance message shown when the reachability probe fails
(src/index.js line 400). -/
def corsGuidanceMsg : List Char :=
  "May not be found or violates CORS policy. Please check URL or download the file and try uploading it.".data

/-- The recorded inputs and platform outcomes of one click of the
`generate-hash` button: the mode string, the trimmed URL text, the selected
file, the selected algorithm, and the oracles for `new URL`, the two probe
requests, the content `fetch`, and `crypto.subtle.digest`. -/
structure HashRunArgs where
  mode : List Char
  url : List Char
  file : Option JsFile
  sriHash : List Char
  parsed : Option JSURL
  headRes : Except JsError ProbeResponse
  getRes : Except JsError ProbeResponse
  fetchRes : Except JsError FetchResponse
  digestFn : List Char → List Nat → List Nat
  typeErrorMsg : List Char

/-- The `try` block of the handler (src/index.js lines 435-458) after the
resource bytes and the source reference are determined: on a fetch/read
failure the store is left as it stands and the error message is alerted;
otherwise `sriSet.sri` is committed, then `makeHtmlTag` runs (it may still
throw, after `sri` was committed), then `sriSet.sriTag` is committed and
the result card is shown. -/
def runPipeline (a : HashRunArgs) (s1 : SriSet)
    (bufRes : Except (List Char) (List Nat)) (src : List Char) : SriSet × UiOutcome :=
  match bufRes with
  | .error msg => (s1, .alert msg)
  | .ok buf =>
    let sri := sriFromArrayBuffer a.digestFn buf a.sriHash
    match makeHtmlTag s1.extension src sri with
    | .error te => ({ s1 with sri := some sri }, .alert (tagErrorMessage a.typeErrorMsg te))
    | .ok tag => ({ s1 with sri := some sri, sriTag := some tag }, .success)

/-- `file.arrayBuffer()` of an uploaded file, with a rejection reduced to
its message. -/
def fileBuffer (f : JsFile) : Except (List Char) (List Nat) :=
  f.content

/-- The `generate-hash` click handler (src/index.js lines 374-459): resets
the Result Store, validates per mode, probes reachability in fetch mode
(committing `sriSet.extension` on validation/probe success), then runs the
fetch-digest-tag pipeline; every failure alerts a message and ends the run.
`prev` is the state of the module-global `sriSet` before the click. -/
def generateHash (prev : SriSet) (a : HashRunArgs) : SriSet × UiOutcome :=
  let s0 := initSriSet prev
  if a.mode = "fetch".data then
    if a.url = [] then (s0, .alert ("URL is required".data))
    else
      let validate := validateURL a.parsed
      if validate.isValid then
        let proveRes := probeCorsReadable a.headRes a.getRes
        if proveRes.readable then
          let s1 := { s0 with extension := validate.extension }
          runPipeline a s1 (fetchContent a.fetchRes) a.url
        else (s0, .alert corsGuidanceMsg)
      else (s0, .alert ("Invalid URL".data))
  else if a.mode = "upload".data then
    match a.file with
    | none => (s0, .alert ("Upload file is required".data))
    | some f =>
      if f.size = 0 then (s0, .alert ("Upload file is required".data))
      else
        let validate := validateFile (some f)
        if validate.isValid then
          let s1 := { s0 with extension := validate.extension }
          runPipeline a s1 (fileBuffer f) f.name
        else (s0, .alert ("Invalid upload file type".data))
  else (s0, .alert ("URL or file is required".data))

/-- A recorded run in fetch mode whose content fetch throws after a
successful probe (a network error between the probe and the retrieval). -/
def fetchFailArgs : HashRunArgs where
  mode := "fetch".data
  url := "https://cdn.example/lib.js".data
  file := none
  sriHash := "SHA-384".data
  parsed := some ⟨"https:".data, "/lib.js".data, []⟩
  headRes := .ok ⟨200, some ("text/javascript".data)⟩
  getRes := .ok ⟨200, some ("text/javascript".data)⟩
  fetchRes := .error ⟨"NetworkError when attempting to fetch resource.".data⟩
  digestFn := fun _ _ => []
  typeErrorMsg := "undefined has no properties".data

/-- A recorded run in fetch mode in which every stage succeeds. -/
def fetchOkArgs : HashRunArgs where
  mode := "fetch".data
  url := "https://cdn.example/lib.js".data
  file := none
  sriHash := "SHA-384".data
  parsed := some ⟨"https:".data, "/lib.js".data, []⟩
  headRes := .ok ⟨200, some ("text/javascript".data)⟩
  getRes := .ok ⟨200, some ("text/javascript".data)⟩
  fetchRes := .ok ⟨true, 200, "OK".data, [1, 2, 3]⟩
  digestFn := fun _ _ => [7, 8, 9]
  typeErrorMsg := "undefined has no properties".data

/-- A recorded run in fetch mode in which both probe attempts throw. -/
def probeFailArgs : HashRunArgs where
  mode := "fetch".data
  url := "https://cdn.example/lib.js".data
  file := none
  sriHash := "SHA-384".data
  parsed := some ⟨"https:".data, "/lib.js".data, []⟩
  headRes := .error ⟨"Failed to fetch".data⟩
  getRes := .error ⟨"NetworkError when attempting to fetch resource.".data⟩
  fetchRes := .ok ⟨true, 200, "OK".data, [1, 2, 3]⟩
  digestFn := fun _ _ => []
  typeErrorMsg := "undefined has no properties".data

/-! ## Helper lemmas about the split/segment machinery -/

theorem splitOnChar_ne_nil (c : Char) : ∀ l : List Char, splitOnChar c l ≠ []
  | [] => by simp [splitOnChar]
  | x :: xs => by
    simp only [splitOnChar]
    split
    · simp
    · cases hS : splitOnChar c xs <;> simp

theorem splitOnChar_of_not_mem (c : Char) :
    ∀ l : List Char, c ∉ l → splitOnChar c l = [l] := by
  intro l
  induction l with
  | nil => intro _; rfl
  | cons x xs ih =>
    intro h
    rw [List.mem_cons] at h
    push_neg at h
    obtain ⟨h1, h2⟩ := h
    simp only [splitOnChar, if_neg (fun e : x = c => h1 e.symm), ih h2]

theorem two_le_length_splitOnChar (c : Char) :
    ∀ l : List Char, c ∈ l → 2 ≤ (splitOnChar c l).length := by
  intro l
  induction l with
  | nil => simp
  | cons x xs ih =>
    intro h
    simp only [splitOnChar]
    by_cases hx : x = c
    · rw [if_pos hx]
      cases hS : splitOnChar c xs with
      | nil => exact absurd hS (splitOnChar_ne_nil c xs)
      | cons a t => simp
    · rw [if_neg hx]
      have hc : c ∈ xs := by
        rcases List.mem_cons.mp h with h' | h'
        · exact absurd h'.symm hx
        · exact h'
      cases hS : splitOnChar c xs with
      | nil => exact absurd hS (splitOnChar_ne_nil c xs)
      | cons a t =>
        have h2 := ih hc
        rw [hS] at h2
        simpa using h2

theorem getLastD_irrel {α : Type} (t : List α) (d₁ d₂ : α) (h : t ≠ []) :
    t.getLastD d₁ = t.getLastD d₂ := by
  cases t with
  | nil => exact absurd rfl h
  | cons a l => rw [List.getLastD_cons, List.getLastD_cons]

theorem lastSegment_of_not_mem (c : Char) (l : List Char) (h : c ∉ l) :
    lastSegment c l = l := by
  simp [lastSegment, splitOnChar_of_not_mem c l h, List.getLastD]

theorem lastSegment_cons_self (c : Char) (xs : List Char) :
    lastSegment c (c :: xs) = lastSegment c xs := by
  have h : splitOnChar c (c :: xs) = [] :: splitOnChar c xs := by
    simp [splitOnChar]
  unfold lastSegment
  rw [h, List.getLastD_cons]

theorem lastSegment_cons_of_ne (c x : Char) (xs : List Char)
    (hx : x ≠ c) (hc : c ∈ xs) :
    lastSegment c (x :: xs) = lastSegment c xs := by
  unfold lastSegment
  simp only [splitOnChar, if_neg hx]
  cases hS : splitOnChar c xs with
  | nil => exact absurd hS (splitOnChar_ne_nil c xs)
  | cons h t =>
    have htne : t ≠ [] := by
      have h2 := two_le_length_splitOnChar c xs hc
      rw [hS] at h2
      intro he
      rw [he] at h2
      simp at h2
    rw [List.getLastD_cons, List.getLastD_cons]
    exact getLastD_irrel t (x :: h) h htne

theorem length_lastSegment_le (c : Char) :
    ∀ l : List Char, (lastSegment c l).length ≤ l.length := by
  intro l
  induction l with
  | nil => simp [lastSegment, splitOnChar, List.getLastD]
  | cons x xs ih =>
    by_cases hx : x = c
    · rw [hx, lastSegment_cons_self]
      exact le_trans ih (by simp)
    · by_cases hc : c ∈ xs
      · rw [lastSegment_cons_of_ne c x xs hx hc]
        exact le_trans ih (by simp)
      · have hnm : c ∉ x :: xs := by
          rw [List.mem_cons]
          push_neg
          exact ⟨fun e => hx e.symm, hc⟩
        rw [lastSegment_of_not_mem c _ hnm]

theorem length_lastSegment_lt (c : Char) :
    ∀ l : List Char, c ∈ l → (lastSegment c l).length < l.length := by
  intro l
  induction l with
  | nil => simp
  | cons x xs ih =>
    intro hmem
    by_cases hx : x = c
    · rw [hx, lastSegment_cons_self]
      have := length_lastSegment_le c xs
      simp only [List.length_cons]
      omega
    · have hc : c ∈ xs := by
        rcases List.mem_cons.mp hmem with h' | h'
        · exact absurd h'.symm hx
        · exact h'
      rw [lastSegment_cons_of_ne c x xs hx hc]
      have := ih hc
      simp only [List.length_cons]
      omega

theorem lastSegment_append (c : Char) (ext : List Char) (hext : c ∉ ext) :
    ∀ stem : List Char, lastSegment c (stem ++ c :: ext) = ext := by
  intro stem
  induction stem with
  | nil =>
    rw [List.nil_append, lastSegment_cons_self, lastSegment_of_not_mem c ext hext]
  | cons x s ih =>
    rw [List.cons_append]
    by_cases hx : x = c
    · rw [hx, lastSegment_cons_self]
      exact ih
    · rw [lastSegment_cons_of_ne c x _ hx (by simp)]
      exact ih

/-! ## Helper lemmas about `yieldExt` -/

theorem yieldExt_of_not_mem (s : List Char) (h : '.' ∉ s) : yieldExt s = [] := by
  simp [yieldExt, h]

theorem yieldExt_eq_of_mem (s : List Char) (h : '.' ∈ s) :
    yieldExt s = (lastSegment '.' s).map Char.toLower := by
  simp [yieldExt, h]

theorem yieldExt_split (stem ext : List Char) (h : '.' ∉ ext) :
    yieldExt (stem ++ '.' :: ext) = ext.map Char.toLower := by
  have hm : '.' ∈ stem ++ '.' :: ext := by simp
  rw [yieldExt_eq_of_mem _ hm, lastSegment_append '.' ext h stem]

theorem length_yieldExt_lt (s : List Char) (h : '.' ∈ s) :
    (yieldExt s).length < s.length := by
  rw [yieldExt_eq_of_mem s h, List.length_map]
  exact length_lastSegment_lt '.' s h

/-! ## Helper lemmas about replacement, base64 chunking and the validators -/

theorem getSubstitution_no_dollar (matched before after : List Char) :
    ∀ repl : List Char, '$' ∉ repl →
      getSubstitution matched before after repl = repl := by
  intro repl
  induction repl with
  | nil => intro _; rfl
  | cons c rest ih =>
    intro h
    rw [List.mem_cons] at h
    push_neg at h
    obtain ⟨h1, h2⟩ := h
    unfold getSubstitution
    rw [if_neg (fun e : c = '$' => h1 e.symm), ih h2]

theorem jsReplaceFirst_no_dollar (s pat repl : List Char) (h : '$' ∉ repl) :
    jsReplaceFirst s pat repl = replaceFirstLiteral s pat repl := by
  unfold jsReplaceFirst replaceFirstLiteral
  cases hS : splitFirst pat s with
  | none => rfl
  | some ba =>
    obtain ⟨b, a⟩ := ba
    simp [getSubstitution_no_dollar pat b a repl h]

theorem toChunks_flatten_le :
    ∀ n (l : List Nat), l.length ≤ n → (toChunks l).flatten = l := by
  intro n
  induction n with
  | zero =>
    intro l h
    have hl : l = [] := by
      cases l with
      | nil => rfl
      | cons a t => simp at h
    subst hl
    simp [toChunks]
  | succ n ih =>
    intro l h
    by_cases hl : l = []
    · subst hl
      simp [toChunks]
    · rw [toChunks, if_neg hl, List.flatten_cons, ih (l.drop 0x8000) ?_,
        List.take_append_drop]
      have hpos : 0 < l.length := List.length_pos.mpr hl
      rw [List.length_drop]
      omega

theorem toChunks_flatten (l : List Nat) : (toChunks l).flatten = l :=
  toChunks_flatten_le l.length l le_rfl

theorem contains_iff_mem_allowed (e : List Char) :
    ALLOWED_EXTENSIONS.contains e = true ↔ e ∈ ALLOWED_EXTENSIONS := by
  constructor
  · intro h; simpa using h
  · intro h; simpa using h

theorem validateURL_valid_extension (p : Option JSURL)
    (h : (validateURL p).isValid = true) :
    ∃ e, (validateURL p).extension = some e ∧ e ∈ ALLOWED_EXTENSIONS := by
  cases p with
  | none => simp [validateURL] at h
  | some u =>
    simp only [validateURL] at h ⊢
    by_cases hp : u.protocol = "http:".data ∨ u.protocol = "https:".data
    · rw [if_pos hp] at h ⊢
      by_cases hc : ALLOWED_EXTENSIONS.contains (getExtension (.url u)) = true
      · rw [if_pos hc] at h ⊢
        exact ⟨getExtension (.url u), rfl, (contains_iff_mem_allowed _).mp hc⟩
      · rw [if_neg hc] at h
        simp at h
    · rw [if_neg hp] at h
      simp at h

theorem validateFile_valid_extension (f : Option JsFile)
    (h : (validateFile f).isValid = true) :
    ∃ e, (validateFile f).extension = some e ∧ e ∈ ALLOWED_EXTENSIONS := by
  cases f with
  | none => simp [validateFile] at h
  | some f =>
    simp only [validateFile] at h ⊢
    by_cases hn : f.name = []
    · rw [if_pos hn] at h
      simp at h
    · rw [if_neg hn] at h ⊢
      by_cases hc : ALLOWED_EXTENSIONS.contains (getExtension (.strT f.name)) = true
      · rw [if_pos hc] at h ⊢
        exact ⟨getExtension (.strT f.name), rfl, (contains_iff_mem_allowed _).mp hc⟩
      · rw [if_neg hc] at h
        simp at h

theorem runPipeline_spec (a : HashRunArgs) (s1 : SriSet)
    (b : Except (List Char) (List Nat)) (src : List Char) (hTag : s1.sriTag = none) :
    ((runPipeline a s1 b src).2 = UiOutcome.success →
      (runPipeline a s1 b src).1.sri ≠ none ∧ (runPipeline a s1 b src).1.sriTag ≠ none ∧
      (runPipeline a s1 b src).1.extension = s1.extension) ∧
    ((runPipeline a s1 b src).2 ≠ UiOutcome.success →
      (runPipeline a s1 b src).1.sriTag = none) := by
  cases b with
  | error msg =>
    refine ⟨fun h => ?_, fun _ => ?_⟩
    · simp [runPipeline] at h
    · simp [runPipeline, hTag]
  | ok buf =>
    cases hM : makeHtmlTag s1.extension src (sriFromArrayBuffer a.digestFn buf a.sriHash) with
    | error msg =>
      refine ⟨fun h => ?_, fun _ => ?_⟩
      · simp [runPipeline, hM] at h
      · simp [runPipeline, hM, hTag]
    | ok tag =>
      refine ⟨fun _ => ?_, fun h => ?_⟩
      · simp [runPipeline, hM]
      · simp [runPipeline, hM] at h

theorem generateHash_main (prev : SriSet) (a : HashRunArgs) :
    ((generateHash prev a).2 = UiOutcome.success →
      (generateHash prev a).1.sri ≠ none ∧ (generateHash prev a).1.sriTag ≠ none ∧
      ∃ e, (generateHash prev a).1.extension = some e ∧ e ∈ ALLOWED_EXTENSIONS) ∧
    ((generateHash prev a).2 ≠ UiOutcome.success →
      (generateHash prev a).1.sriTag = none) := by
  simp only [generateHash]
  by_cases h1 : a.mode = "fetch".data
  · rw [if_pos h1]
    by_cases h2 : a.url = []
    · rw [if_pos h2]
      exact ⟨fun h => by simp at h, fun _ => rfl⟩
    · rw [if_neg h2]
      by_cases h3 : (validateURL a.parsed).isValid = true
      · rw [if_pos h3]
        by_cases h4 : (probeCorsReadable a.headRes a.getRes).readable = true
        · rw [if_pos h4]
          obtain ⟨e, he, hme⟩ := validateURL_valid_extension a.parsed h3
          have spec := runPipeline_spec a
            { initSriSet prev with extension := (validateURL a.parsed).extension }
            (fetchContent a.fetchRes) a.url rfl
          refine ⟨fun hs => ?_, spec.2⟩
          obtain ⟨hsri, htag, hext⟩ := spec.1 hs
          exact ⟨hsri, htag, e, by rw [hext]; exact he, hme⟩
        · rw [if_neg h4]
          exact ⟨fun h => by simp at h, fun _ => rfl⟩
      · rw [if_neg h3]
        exact ⟨fun h => by simp at h, fun _ => rfl⟩
  · rw [if_neg h1]
    by_cases h5 : a.mode = "upload".data
    · rw [if_pos h5]
      cases hf : a.file with
      | none => exact ⟨fun h => by simp at h, fun _ => rfl⟩
      | some f =>
        simp only []
        by_cases h6 : f.size = 0
        · rw [if_pos h6]
          exact ⟨fun h => by simp at h, fun _ => rfl⟩
        · rw [if_neg h6]
          by_cases h7 : (validateFile (some f)).isValid = true
          · rw [if_pos h7]
            obtain ⟨e, he, hme⟩ := validateFile_valid_extension (some f) h7
            have spec := runPipeline_spec a
              { initSriSet prev with extension := (validateFile (some f)).extension }
              (fileBuffer f) f.name rfl
            refine ⟨fun hs => ?_, spec.2⟩
            obtain ⟨hsri, htag, hext⟩ := spec.1 hs
            exact ⟨hsri, htag, e, by rw [hext]; exact he, hme⟩
          · rw [if_neg h7]
            exact ⟨fun h => by simp at h, fun _ => rfl⟩
    · rw [if_neg h5]
      exact ⟨fun h => by simp at h, fun _ => rfl⟩

/-! ## Claim theorems -/

/-- Claim C10: `algoToSriPrefix` does not validate its input against the
fixed algorithm set.  The strings SHA-256, SHA-384, SHA-512 (matched
case-insensitively) yield `sha256-`, `sha384-`, `sha512-`, and every other
input `s` yields `sha` ++ `s` ++ `-` unchanged (for example `MD5` yields
`shaMD5-`), so an unsupported algorithm name flows into the integrity
string rather than being rejected. -/
theorem algoToSriPrefix_no_validation (s : List Char) :
    (s.map Char.toLower = "sha-256".data → algoToSriPrefix s = "sha256-".data) ∧
    (s.map Char.toLower = "sha-384".data → algoToSriPrefix s = "sha384-".data) ∧
    (s.map Char.toLower = "sha-512".data → algoToSriPrefix s = "sha512-".data) ∧
    (s.map Char.toLower ≠ "sha-256".data → s.map Char.toLower ≠ "sha-384".data →
      s.map Char.toLower ≠ "sha-512".data →
      algoToSriPrefix s = "sha".data ++ s ++ "-".data) := by
  refine ⟨fun h => ?_, fun h => ?_, fun h => ?_, fun h1 h2 h3 => ?_⟩
  · simp only [algoToSriPrefix]
    rw [if_pos h]
    decide
  · simp only [algoToSriPrefix]
    rw [if_neg (by rw [h]; decide), if_pos h]
    decide
  · simp only [algoToSriPrefix]
    rw [if_neg (by rw [h]; decide), if_neg (by rw [h]; decide), if_pos h]
    decide
  · simp only [algoToSriPrefix]
    rw [if_neg h1, if_neg h2, if_neg h3]

/-- Witness for C10: the theorem applied at `sha-384` (case-insensitive
match) and at the unsupported name `MD5`. -/
theorem algoToSriPrefix_no_validation_witness :
    algoToSriPrefix ("sha-384".data) = "sha384-".data ∧
    algoToSriPrefix ("MD5".data) = "shaMD5-".data := by
  constructor
  · exact (algoToSriPrefix_no_validation ("sha-384".data)).2.1 (by decide)
  · exact ((algoToSriPrefix_no_validation ("MD5".data)).2.2.2 (by decide) (by decide)
      (by decide)).trans (by decide)

/-- Claim C1 counterexample: the allow-list does not contain a wasm entry.
`ALLOWED_EXTENSIONS` lacks `wasm`, `EXT_MASTER` has no wasm-module template
(it has exactly the two entries js and css), and both validators reject an
input resolving to the `wasm` extension — refuting the claimed three-pair
set `{script↦js, stylesheet↦css, wasm-module↦wasm}`. -/
theorem allowList_no_wasm :
    "wasm".data ∉ ALLOWED_EXTENSIONS ∧
    EXT_MASTER.lookup ("wasm".data) = none ∧
    EXT_MASTER.length = 2 ∧
    validateFile (some ⟨"mod.wasm".data, 10, .ok []⟩) = ⟨false, none⟩ ∧
    validateURL (some ⟨"https:".data, "/mod.wasm".data, []⟩) = ⟨false, none⟩ := by
  exact ⟨by decide, by decide, by decide, by decide, by decide⟩

/-- Claim C1 (amended): the allow-list of resource kinds and extensions is
a closed set containing exactly the two pairs script↦js and
stylesheet↦css; `validateURL`/`validateFile` accept an input resolving to
extension `e` iff `e` is one of js, css, and the template table has
exactly one template per kind, with no wasm-module entry. -/
theorem allowList_closed_two (f : JsFile) (u : JSURL) :
    ALLOWED_EXTENSIONS = ["js".data, "css".data] ∧
    EXT_MASTER.map Prod.fst = ["js".data, "css".data] ∧
    (f.name ≠ [] → ((validateFile (some f)).isValid = true ↔
      getExtension (.strT f.name) ∈ ALLOWED_EXTENSIONS)) ∧
    ((u.protocol = "http:".data ∨ u.protocol = "https:".data) →
      ((validateURL (some u)).isValid = true ↔
        getExtension (.url u) ∈ ALLOWED_EXTENSIONS)) := by
  refine ⟨by decide, by decide, fun hn => ?_, fun hp => ?_⟩
  · simp only [validateFile]
    rw [if_neg hn]
    by_cases hc : ALLOWED_EXTENSIONS.contains (getExtension (.strT f.name)) = true
    · rw [if_pos hc]
      simp [(contains_iff_mem_allowed _).mp hc]
    · rw [if_neg hc]
      have hnm : getExtension (.strT f.name) ∉ ALLOWED_EXTENSIONS :=
        fun hm => hc ((contains_iff_mem_allowed _).mpr hm)
      simp [hnm]
  · simp only [validateURL]
    rw [if_pos hp]
    by_cases hc : ALLOWED_EXTENSIONS.contains (getExtension (.url u)) = true
    · rw [if_pos hc]
      simp [(contains_iff_mem_allowed _).mp hc]
    · rw [if_neg hc]
      have hnm : getExtension (.url u) ∉ ALLOWED_EXTENSIONS :=
        fun hm => hc ((contains_iff_mem_allowed _).mpr hm)
      simp [hnm]

/-- Witness for the amended C1: the theorem applied to a js file and a css
URL. -/
theorem allowList_closed_two_witness :
    ((validateFile (some ⟨"lib.js".data, 10, .ok []⟩)).isValid = true ↔
      getExtension (.strT ("lib.js".data)) ∈ ALLOWED_EXTENSIONS) ∧
    ((validateURL (some ⟨"https:".data, "/a.css".data, []⟩)).isValid = true ↔
      getExtension (.url ⟨"https:".data, "/a.css".data, []⟩) ∈ ALLOWED_EXTENSIONS) := by
  constructor
  · exact (allowList_closed_two ⟨"lib.js".data, 10, .ok []⟩
      ⟨"https:".data, "/a.css".data, []⟩).2.2.1 (by decide)
  · exact (allowList_closed_two ⟨"lib.js".data, 10, .ok []⟩
      ⟨"https:".data, "/a.css".data, []⟩).2.2.2 (Or.inr (by decide))

/-- Claim C7: the chunked base64 encoding (`arrayBufferToBase64`, which
joins 32 KiB chunks into one binary string before a single `btoa`) is
bit-identical to base64-encoding the whole buffer at once, and
`sriFromArrayBuffer` is the lower-case `sha<bits>-` prefix followed by the
padded standard base64 of the digest bytes, for each supported algorithm
name. -/
theorem arrayBufferToBase64_chunks_eq (digestFn : List Char → List Nat → List Nat)
    (buf bytes : List Nat) :
    arrayBufferToBase64 bytes = btoa bytes ∧
    sriFromArrayBuffer digestFn buf ("SHA-256".data) =
      "sha256-".data ++ btoa (digestFn ("SHA-256".data) buf) ∧
    sriFromArrayBuffer digestFn buf ("SHA-384".data) =
      "sha384-".data ++ btoa (digestFn ("SHA-384".data) buf) ∧
    sriFromArrayBuffer digestFn buf ("SHA-512".data) =
      "sha512-".data ++ btoa (digestFn ("SHA-512".data) buf) := by
  have hchunk : ∀ l : List Nat, arrayBufferToBase64 l = btoa l := by
    intro l
    unfold arrayBufferToBase64
    rw [toChunks_flatten]
  refine ⟨hchunk bytes, ?_, ?_, ?_⟩ <;>
    (unfold sriFromArrayBuffer; rw [hchunk]; congr 1)

/-- Claim C9: for a plain filename string, the Extension Resolver returns
the lower-cased substring after the last `.` (so a multi-dot name yields
only the final component and a name ending in a bare dot yields the empty
suffix), and the empty string when the name has no `.` at all. -/
theorem getExtension_filename (s stem ext : List Char) :
    ('.' ∉ s → getExtension (.strT s) = []) ∧
    ('.' ∉ ext → getExtension (.strT (stem ++ '.' :: ext)) = ext.map Char.toLower) := by
  constructor
  · intro h
    show yieldExt s = []
    exact yieldExt_of_not_mem s h
  · intro h
    show yieldExt (stem ++ '.' :: ext) = ext.map Char.toLower
    exact yieldExt_split stem ext h

/-- Witness for C9: no-dot, upper-case, multi-dot and bare-dot filenames. -/
theorem getExtension_filename_witness :
    getExtension (.strT ("noext".data)) = [] ∧
    getExtension (.strT ("lib".data ++ '.' :: "JS".data)) = "js".data ∧
    getExtension (.strT ("jquery.min".data ++ '.' :: "js".data)) = "js".data ∧
    getExtension (.strT ("name".data ++ '.' :: [])) = [] := by
  refine ⟨?_, ?_, ?_, ?_⟩
  · exact (getExtension_filename ("noext".data) [] []).1 (by decide)
  · exact ((getExtension_filename [] ("lib".data) ("JS".data)).2 (by decide)).trans (by decide)
  · exact ((getExtension_filename [] ("jquery.min".data) ("js".data)).2 (by decide)).trans
      (by decide)
  · exact ((getExtension_filename [] ("name".data) []).2 (by decide)).trans (by decide)

/-- Claim C4: `validateURL` is invalid when the input does not parse as an
absolute URL or when the scheme is not http/https; with an http/https
scheme the verdict is valid with the extension set iff the resolved
extension is allow-listed; and an invalid verdict never carries an
extension. -/
theorem validateURL_spec (parsed : Option JSURL) :
    (parsed = none → validateURL parsed = ⟨false, none⟩) ∧
    (∀ u, parsed = some u →
      (¬(u.protocol = "http:".data ∨ u.protocol = "https:".data) →
        validateURL parsed = ⟨false, none⟩) ∧
      ((u.protocol = "http:".data ∨ u.protocol = "https:".data) →
        (getExtension (.url u) ∈ ALLOWED_EXTENSIONS →
          validateURL parsed = ⟨true, some (getExtension (.url u))⟩) ∧
        (getExtension (.url u) ∉ ALLOWED_EXTENSIONS →
          validateURL parsed = ⟨false, none⟩))) ∧
    ((validateURL parsed).isValid = false → (validateURL parsed).extension = none) := by
  refine ⟨fun h => ?_, fun u hu => ?_, fun hinv => ?_⟩
  · subst h
    rfl
  · subst hu
    refine ⟨fun hp => ?_, fun hp => ⟨fun hm => ?_, fun hm => ?_⟩⟩
    · simp only [validateURL]
      rw [if_neg hp]
    · simp only [validateURL]
      rw [if_pos hp, if_pos ((contains_iff_mem_allowed _).mpr hm)]
    · simp only [validateURL]
      rw [if_pos hp, if_neg (fun hc => hm ((contains_iff_mem_allowed _).mp hc))]
  · cases parsed with
    | none => rfl
    | some u =>
      simp only [validateURL] at hinv ⊢
      by_cases hp : u.protocol = "http:".data ∨ u.protocol = "https:".data
      · rw [if_pos hp] at hinv ⊢
        by_cases hc : ALLOWED_EXTENSIONS.contains (getExtension (.url u)) = true
        · rw [if_pos hc] at hinv
          simp at hinv
        · rw [if_neg hc]
      · rw [if_neg hp]

/-- Witness for C4: a failed parse, a non-http scheme, and a valid https
URL with an allow-listed extension. -/
theorem validateURL_spec_witness :
    validateURL none = ⟨false, none⟩ ∧
    validateURL (some ⟨"ftp:".data, "/lib.js".data, []⟩) = ⟨false, none⟩ ∧
    validateURL (some ⟨"https:".data, "/lib.js".data, []⟩) = ⟨true, some ("js".data)⟩ := by
  refine ⟨?_, ?_, ?_⟩
  · exact (validateURL_spec none).1 rfl
  · exact ((validateURL_spec _).2.1 ⟨"ftp:".data, "/lib.js".data, []⟩ rfl).1 (by decide)
  · exact ((((validateURL_spec _).2.1 ⟨"https:".data, "/lib.js".data, []⟩ rfl).2
      (by decide)).1 (by decide)).trans (by decide)

/-- Claim C6 counterexample: with a source containing the replacement
pattern `$&`, the platform `replace` does not insert the source reference
verbatim, so the produced script tag differs from the literal
first-occurrence substitution the claim describes. -/
theorem makeHtmlTag_dollar_counterexample :
    makeHtmlTag (some ("js".data)) ("a$&b".data) ("X".data) ≠
      Except.ok (replaceFirstLiteral (replaceFirstLiteral
        ("<script src=\"\x7b\x7bsource\x7d\x7d\" integrity=\"\x7b\x7bsri\x7d\x7d\" crossorigin=\"anonymous\"></script>".data)
        ("\x7b\x7bsource\x7d\x7d".data) ("a$&b".data)) ("\x7b\x7bsri\x7d\x7d".data) ("X".data)) := by
  decide

/-- Claim C6 (amended): for the script kind on source
`https://cdn.example/lib.js` and digest `sha384-ABC123`, `makeHtmlTag`
returns exactly the claimed script tag; and for every kind of the template
table, as long as source and digest contain no `$` character, the result
is the template with the first occurrence of each placeholder replaced
verbatim by the source reference and the digest (with a `$` in the inputs,
the platform replace applies its `$`-escape rules instead). -/
theorem makeHtmlTag_substitution (e t source sri : List Char) :
    makeHtmlTag (some ("js".data)) ("https://cdn.example/lib.js".data)
        ("sha384-ABC123".data) =
      .ok ("<script src=\"https://cdn.example/lib.js\" integrity=\"sha384-ABC123\" crossorigin=\"anonymous\"></script>".data) ∧
    (EXT_MASTER.lookup e = some t → '$' ∉ source → '$' ∉ sri →
      makeHtmlTag (some e) source sri =
        .ok (replaceFirstLiteral (replaceFirstLiteral t ("\x7b\x7bsource\x7d\x7d".data) source)
          ("\x7b\x7bsri\x7d\x7d".data) sri)) := by
  constructor
  · decide
  · intro hl hs hr
    have hb : extMasterAccess (propertyKey (some e)) = .own t := by
      simp [extMasterAccess, propertyKey, hl]
    simp only [makeHtmlTag, hb]
    rw [jsReplaceFirst_no_dollar _ _ _ hs, jsReplaceFirst_no_dollar _ _ _ hr]

/-- Witness for the amended C6: the stylesheet kind on a `$`-free source
and digest. -/
theorem makeHtmlTag_substitution_witness :
    makeHtmlTag (some ("css".data)) ("style.css".data) ("sha256-QQ".data) =
      .ok (replaceFirstLiteral (replaceFirstLiteral
        ("<link rel=\"stylesheet\" href=\"\x7b\x7bsource\x7d\x7d\" integrity=\"\x7b\x7bsri\x7d\x7d\" crossorigin=\"anonymous\">".data)
        ("\x7b\x7bsource\x7d\x7d".data) ("style.css".data))
        ("\x7b\x7bsri\x7d\x7d".data) ("sha256-QQ".data)) :=
  (makeHtmlTag_substitution ("css".data)
    ("<link rel=\"stylesheet\" href=\"\x7b\x7bsource\x7d\x7d\" integrity=\"\x7b\x7bsri\x7d\x7d\" crossorigin=\"anonymous\">".data)
    ("style.css".data) ("sha256-QQ".data)).2 (by decide) (by decide) (by decide)

/-- Claim C5: the prober tries HEAD first and GET only when HEAD throws;
any transport-level response — regardless of HTTP status — yields
`readable: true` with the observed status and content-type; when both
attempts throw, the result is `readable: false` with the exception's
message as `reason`, and the orchestration then aborts with the guidance
alert, for every possible content-fetch outcome (so the content fetch is
never consulted). -/
theorem probeCorsReadable_spec (headRes getRes : Except JsError ProbeResponse)
    (prev : SriSet) (a : HashRunArgs) :
    (∀ r, headRes = .ok r →
      probeCorsReadable headRes getRes = ⟨true, some r.status, r.contentType, none⟩) ∧
    (∀ e r, headRes = .error e → getRes = .ok r →
      probeCorsReadable headRes getRes = ⟨true, some r.status, r.contentType, none⟩) ∧
    (∀ e e2, headRes = .error e → getRes = .error e2 →
      probeCorsReadable headRes getRes = ⟨false, none, none, some e2.message⟩) ∧
    (a.mode = "fetch".data → a.url ≠ [] → (validateURL a.parsed).isValid = true →
      (∃ e, a.headRes = .error e) → (∃ e2, a.getRes = .error e2) →
      ∀ fr, generateHash prev { a with fetchRes := fr } =
        (⟨none, none, none⟩, .alert corsGuidanceMsg)) := by
  refine ⟨fun r h => ?_, fun e r h1 h2 => ?_, fun e e2 h1 h2 => ?_, ?_⟩
  · rw [h]
    rfl
  · rw [h1, h2]
    rfl
  · rw [h1, h2]
    rfl
  · rintro hm hu hv ⟨e, he⟩ ⟨e2, he2⟩ fr
    have hread : probeCorsReadable a.headRes a.getRes = ⟨false, none, none, some e2.message⟩ := by
      rw [he, he2]
      rfl
    simp only [generateHash]
    rw [if_pos (show ({ a with fetchRes := fr } : HashRunArgs).mode = "fetch".data from hm),
      if_neg (show ¬({ a with fetchRes := fr } : HashRunArgs).url = [] from hu),
      if_pos (show (validateURL ({ a with fetchRes := fr } : HashRunArgs).parsed).isValid =
        true from hv)]
    rw [show probeCorsReadable ({ a with fetchRes := fr } : HashRunArgs).headRes
        ({ a with fetchRes := fr } : HashRunArgs).getRes =
        ⟨false, none, none, some e2.message⟩ from hread]
    rfl

/-- Witness for C5: a run whose HEAD and GET probes both throw, applied to
the theorem's both-throw and orchestration conjuncts. -/
theorem probeCorsReadable_spec_witness :
    probeCorsReadable probeFailArgs.headRes probeFailArgs.getRes =
      ⟨false, none, none,
        some ("NetworkError when attempting to fetch resource.".data)⟩ ∧
    generateHash ⟨none, none, none⟩ probeFailArgs =
      (⟨none, none, none⟩, .alert corsGuidanceMsg) := by
  constructor
  · exact (probeCorsReadable_spec probeFailArgs.headRes probeFailArgs.getRes
      ⟨none, none, none⟩ probeFailArgs).2.2.1 ⟨"Failed to fetch".data⟩
      ⟨"NetworkError when attempting to fetch resource.".data⟩ rfl rfl
  · exact (probeCorsReadable_spec probeFailArgs.headRes probeFailArgs.getRes
      ⟨none, none, none⟩ probeFailArgs).2.2.2 rfl (by decide) (by decide)
      ⟨⟨"Failed to fetch".data⟩, rfl⟩
      ⟨⟨"NetworkError when attempting to fetch resource.".data⟩, rfl⟩
      probeFailArgs.fetchRes

/-- Claim C2 counterexample: a fetch-mode run whose validation and probe
succeed but whose content fetch throws ends with an alert, yet the Result
Store is not all-empty — `extension` was committed before the pipeline
completed, refuting atomic population. -/
theorem resultStore_partial_on_fetch_failure :
    (generateHash ⟨none, none, none⟩ fetchFailArgs).2 =
      .alert ("NetworkError when attempting to fetch resource.".data) ∧
    (generateHash ⟨none, none, none⟩ fetchFailArgs).1.extension = some ("js".data) ∧
    (generateHash ⟨none, none, none⟩ fetchFailArgs).1 ≠ ⟨none, none, none⟩ := by
  exact ⟨by decide, by decide, by decide⟩

/-- Claim C2 (amended): the Result Store is reset to all-empty at the
start of every hash operation, and on full success all three fields are
populated; on a failing run the tag is never set, but `extension` (and
after a digest, `sri`) may already have been committed by the time the
operation aborts, so the store need not be all-empty on failure. -/
theorem resultStore_lifecycle (prev : SriSet) (a : HashRunArgs) :
    initSriSet prev = ⟨none, none, none⟩ ∧
    ((generateHash prev a).2 = UiOutcome.success →
      (generateHash prev a).1.sri ≠ none ∧ (generateHash prev a).1.sriTag ≠ none ∧
      (generateHash prev a).1.extension ≠ none) ∧
    ((generateHash prev a).2 ≠ UiOutcome.success →
      (generateHash prev a).1.sriTag = none) := by
  refine ⟨rfl, fun h => ?_, (generateHash_main prev a).2⟩
  obtain ⟨h1, h2, e, he, _⟩ := (generateHash_main prev a).1 h
  refine ⟨h1, h2, ?_⟩
  rw [he]
  simp

/-- Witness for the amended C2: a fully successful run populates all three
fields. -/
theorem resultStore_lifecycle_witness :
    (generateHash ⟨none, none, none⟩ fetchOkArgs).1.sri ≠ none ∧
    (generateHash ⟨none, none, none⟩ fetchOkArgs).1.sriTag ≠ none ∧
    (generateHash ⟨none, none, none⟩ fetchOkArgs).1.extension ≠ none :=
  (resultStore_lifecycle ⟨none, none, none⟩ fetchOkArgs).2.1 (by decide)

/-- Claim C8 counterexample: `toString` is absent from the template
mapping, yet `makeHtmlTag` does not throw the descriptive
`Unknown extension:` error for it — the guard `!EXT_MASTER[ext]` sees the
truthy `Object.prototype.toString` through the prototype chain, so
execution reaches `tag.replace(...)` with `tag` equal to `undefined` and
a platform TypeError is thrown instead. -/
theorem makeHtmlTag_proto_counterexample :
    EXT_MASTER.lookup ("toString".data) = none ∧
    makeHtmlTag (some ("toString".data)) ("lib.js".data) ("sha384-Q".data) =
      .error TagError.typeErrorUndefinedTag ∧
    makeHtmlTag (some ("toString".data)) ("lib.js".data) ("sha384-Q".data) ≠
      .error (.unknownExtension ("Unknown extension: toString".data)) := by
  exact ⟨by decide, by decide, by decide⟩

/-- Claim C8 (amended): the Tag Synthesizer never silently defaults — for
every kind absent from the template mapping it throws: the descriptive
`Unknown extension:` error when the kind is not an `Object.prototype`
property name, and a platform TypeError (raised by `tag.replace` with
`tag` read as `undefined` through the prototype chain) when it is; in
every reachable final state of the Result Store the tag markup is set
only when the stored extension is a recognized kind of the allow-list. -/
theorem makeHtmlTag_rejects_unknown (ext : Option (List Char)) (source sri : List Char)
    (prev : SriSet) (a : HashRunArgs) :
    (EXT_MASTER.lookup (propertyKey ext) = none →
      (propertyKey ext ∉ objectPrototypeKeys →
        makeHtmlTag ext source sri =
          .error (.unknownExtension ("Unknown extension: ".data ++ extensionText ext))) ∧
      (propertyKey ext ∈ objectPrototypeKeys →
        makeHtmlTag ext source sri = .error TagError.typeErrorUndefinedTag) ∧
      (∀ tag, makeHtmlTag ext source sri ≠ .ok tag)) ∧
    ((generateHash prev a).1.sriTag ≠ none →
      ∃ e, (generateHash prev a).1.extension = some e ∧ e ∈ ALLOWED_EXTENSIONS) := by
  constructor
  · intro h
    have hacc : extMasterAccess (propertyKey ext) =
        (if propertyKey ext ∈ objectPrototypeKeys then .inherited else .absent) := by
      simp [extMasterAccess, h]
    refine ⟨fun hp => ?_, fun hp => ?_, fun tag => ?_⟩
    · rw [if_neg hp] at hacc
      simp only [makeHtmlTag, hacc]
    · rw [if_pos hp] at hacc
      simp only [makeHtmlTag, hacc]
    · by_cases hp : propertyKey ext ∈ objectPrototypeKeys
      · rw [if_pos hp] at hacc
        simp only [makeHtmlTag, hacc]
        exact fun he => Except.noConfusion he
      · rw [if_neg hp] at hacc
        simp only [makeHtmlTag, hacc]
        exact fun he => Except.noConfusion he
  · intro h
    by_cases hs : (generateHash prev a).2 = UiOutcome.success
    · obtain ⟨_, _, e, he, hm⟩ := (generateHash_main prev a).1 hs
      exact ⟨e, he, hm⟩
    · exact absurd ((generateHash_main prev a).2 hs) h

/-- Witness for the amended C8: the unknown kind `wasm` gets the
descriptive error, the prototype-inherited name `valueOf` gets the
TypeError, and a successful run stores a recognized kind. -/
theorem makeHtmlTag_rejects_unknown_witness :
    makeHtmlTag (some ("wasm".data)) ("mod.wasm".data) ("sha384-Q".data) =
      .error (.unknownExtension ("Unknown extension: wasm".data)) ∧
    makeHtmlTag (some ("valueOf".data)) ("mod.js".data) ("sha384-Q".data) =
      .error TagError.typeErrorUndefinedTag ∧
    (∃ e, (generateHash ⟨none, none, none⟩ fetchOkArgs).1.extension = some e ∧
      e ∈ ALLOWED_EXTENSIONS) := by
  refine ⟨?_, ?_, ?_⟩
  · exact (((makeHtmlTag_rejects_unknown (some ("wasm".data)) ("mod.wasm".data)
      ("sha384-Q".data) ⟨none, none, none⟩ fetchOkArgs).1 (by decide)).1
      (by decide)).trans (by decide)
  · exact ((makeHtmlTag_rejects_unknown (some ("valueOf".data)) ("mod.js".data)
      ("sha384-Q".data) ⟨none, none, none⟩ fetchOkArgs).1 (by decide)).2.1 (by decide)
  · exact (makeHtmlTag_rejects_unknown (some ("wasm".data)) ("mod.wasm".data)
      ("sha384-Q".data) ⟨none, none, none⟩ fetchOkArgs).2 (by decide)

/-- Claim C3: for a structured URL the Extension Resolver prefers the
path: when the last path segment contains a `.` it returns that segment's
lower-cased extension; when the last segment has no `.` it tries the query
keys `file` then `filename` in that order and returns the extension of the
first non-empty value; when the last segment is empty (root path) it
returns empty regardless of query parameters; and when neither path nor
recognized query key yields a value it returns empty. -/
theorem getExtension_url (u : JSURL) :
    (lastSegment '/' u.pathname = [] → getExtension (.url u) = []) ∧
    (lastSegment '/' u.pathname ≠ [] → '.' ∈ lastSegment '/' u.pathname →
      getExtension (.url u) = yieldExt (lastSegment '/' u.pathname)) ∧
    (lastSegment '/' u.pathname ≠ [] → '.' ∉ lastSegment '/' u.pathname →
      (∀ v, spGet ("file".data) u.searchParams = some v → v ≠ [] →
        getExtension (.url u) = yieldExt v) ∧
      ((spGet ("file".data) u.searchParams = none ∨
          spGet ("file".data) u.searchParams = some []) →
        (∀ w, spGet ("filename".data) u.searchParams = some w → w ≠ [] →
          getExtension (.url u) = yieldExt w) ∧
        ((spGet ("filename".data) u.searchParams = none ∨
            spGet ("filename".data) u.searchParams = some []) →
          getExtension (.url u) = []))) := by
  refine ⟨fun h => ?_, fun hne hdot => ?_, fun hne hdot => ?_⟩
  · simp only [getExtension]
    rw [if_pos h]
  · simp only [getExtension]
    rw [if_neg hne, if_pos hdot]
    by_cases hfp : yieldExt (lastSegment '/' u.pathname) = []
    · have hcond : ¬(yieldExt (lastSegment '/' u.pathname) ≠ [] ∧
          yieldExt (lastSegment '/' u.pathname) ≠ u.pathname.map Char.toLower) :=
        fun hc => hc.1 hfp
      rw [if_neg hcond, hfp]
    · have hlt : (yieldExt (lastSegment '/' u.pathname)).length <
          (lastSegment '/' u.pathname).length := length_yieldExt_lt _ hdot
      have hle := length_lastSegment_le '/' u.pathname
      have hneq : yieldExt (lastSegment '/' u.pathname) ≠ u.pathname.map Char.toLower := by
        intro he
        have hlen := congrArg List.length he
        rw [List.length_map] at hlen
        omega
      rw [if_pos ⟨hfp, hneq⟩]
  · constructor
    · intro v hv hvne
      have ht : optTruthy (some v) = true := by
        cases v with
        | nil => exact absurd rfl hvne
        | cons a l => rfl
      simp only [getExtension]
      rw [if_neg hne, if_neg hdot, hv, if_pos ht, if_pos ht]
      rfl
    · intro hfile
      have hft : optTruthy (spGet ("file".data) u.searchParams) = false := by
        rcases hfile with h | h <;> rw [h] <;> rfl
      have hc1 : (if optTruthy (spGet ("file".data) u.searchParams) = true
            then spGet ("file".data) u.searchParams
            else spGet ("filename".data) u.searchParams) =
          spGet ("filename".data) u.searchParams := by
        rw [if_neg (by simp [hft])]
      constructor
      · intro w hw hwne
        have htw : optTruthy (some w) = true := by
          cases w with
          | nil => exact absurd rfl hwne
          | cons a l => rfl
        simp only [getExtension]
        rw [if_neg hne, if_neg hdot, hc1, hw, if_pos htw]
        rfl
      · intro hfname
        have hfnt : optTruthy (spGet ("filename".data) u.searchParams) = false := by
          rcases hfname with h | h <;> rw [h] <;> rfl
        simp only [getExtension]
        rw [if_neg hne, if_neg hdot, hc1, if_neg (by simp [hfnt])]

/-- Witness for C3: a root path with a query key, a path extension, the
`file` and `filename` query fallbacks, and a URL with neither. -/
theorem getExtension_url_witness :
    getExtension (.url ⟨"https:".data, "/".data, [("file".data, "lib.js".data)]⟩) = [] ∧
    getExtension (.url ⟨"https:".data, "/pkg/jquery.min.js".data, []⟩) = "js".data ∧
    getExtension (.url ⟨"https:".data, "/download".data,
      [("file".data, "app.wasm".data)]⟩) = "wasm".data ∧
    getExtension (.url ⟨"https:".data, "/download".data,
      [("other".data, "x".data), ("filename".data, "lib.css".data)]⟩) = "css".data ∧
    getExtension (.url ⟨"https:".data, "/download".data, []⟩) = [] := by
  refine ⟨?_, ?_, ?_, ?_, ?_⟩
  · exact (getExtension_url _).1 (by decide)
  · exact ((getExtension_url _).2.1 (by decide) (by decide)).trans (by decide)
  · exact (((getExtension_url _).2.2 (by decide) (by decide)).1 ("app.wasm".data)
      (by decide) (by decide)).trans (by decide)
  · exact ((((getExtension_url _).2.2 (by decide) (by decide)).2
      (Or.inl (by decide))).1 ("lib.css".data) (by decide) (by decide)).trans (by decide)
  · exact (((getExtension_url _).2.2 (by decide) (by decide)).2
      (Or.inl (by decide))).2 (Or.inl (by decide))

end SriHasher
